import Mathlib

/-!
Verification of the mongonet proxy core.

A shallow embedding of the mongonet wire codec (`CommandReplyMessage.Serialize`,
`parseCommandReplyMessage`), the `MongoError` model, the sample interceptor
(`InterceptClientToMongo`), and — modelled from the specification where the
repository sources are not available — the simple-BSON framing helpers, the
backend connection pool and the session retry policy.

Bytes are modelled as natural numbers; buffers as `List Nat`.  Go's 32-bit
header fields are modelled as naturals reduced modulo `2^32` where the source
casts to `int32`.
-/

/-- A byte of a wire buffer (values `< 256` in real traffic; the embedding
does not need the bound for the claims proved here). -/
abbrev Byte := Nat

/-- `overwrite src buf` writes `src` over the front of `buf`, truncating at
the end of `buf` — the semantics of Go's builtin `copy(buf, src)` (the
destination never grows). -/
def overwrite : List Byte → List Byte → List Byte
  | _, [] => []
  | [], buf => buf
  | s :: src, _ :: buf => s :: overwrite src buf

/-- `writeAt loc src buf` writes `src` into `buf` starting at offset `loc`,
truncating at the end of `buf` — the semantics of Go's
`copy(buf[loc:], src)`. -/
def writeAt : Nat → List Byte → List Byte → List Byte
  | _, _, [] => []
  | 0, src, buf => overwrite src buf
  | n + 1, src, b :: buf => b :: writeAt n src buf

/-- Little-endian encoding of a 32-bit value (Go `writeInt32`): four bytes,
least significant first. -/
def le4 (n : Nat) : List Byte :=
  [n % 256, n / 256 % 256, n / 65536 % 256, n / 16777216 % 256]

/-- Little-endian read of a 32-bit size from the front of a buffer
(Go `readInt32`); out-of-range positions read as 0. -/
def readLE4 (b : List Byte) : Nat :=
  b.getD 0 0 + 256 * b.getD 1 0 + 65536 * b.getD 2 0 + 16777216 * b.getD 3 0

theorem overwrite_length : ∀ (src buf : List Byte), (overwrite src buf).length = buf.length
  | _, [] => by simp [overwrite]
  | [], _ :: _ => by simp [overwrite]
  | _ :: src, _ :: buf => by simp [overwrite, overwrite_length src buf]

theorem writeAt_length : ∀ (loc : Nat) (src buf : List Byte),
    (writeAt loc src buf).length = buf.length
  | _, _, [] => by simp [writeAt]
  | 0, src, b :: buf => by simp [writeAt, overwrite_length]
  | n + 1, src, b :: buf => by simp [writeAt, writeAt_length n src buf]

theorem overwrite_append : ∀ (src pre rest : List Byte), src.length = pre.length →
    overwrite src (pre ++ rest) = src ++ rest
  | [], [], rest, _ => by cases rest <;> simp [overwrite]
  | s :: src, p :: pre, rest, h => by
    simp only [List.length_cons, Nat.succ.injEq] at h
    simp [overwrite, overwrite_append src pre rest h]

theorem writeAt_append : ∀ (pre src rest : List Byte),
    writeAt pre.length src (pre ++ rest) = pre ++ overwrite src rest
  | [], src, rest => by cases rest <;> cases src <;> simp [writeAt, overwrite]
  | p :: pre, src, rest => by
    simp [writeAt, writeAt_append pre src rest]

theorem le4_length (n : Nat) : (le4 n).length = 4 := rfl

theorem readLE4_le4 (n : Nat) (h : n < 4294967296) : readLE4 (le4 n) = n := by
  simp [readLE4, le4, List.getD]
  omega

theorem readLE4_append (b rest : List Byte) (h : 4 ≤ b.length) :
    readLE4 (b ++ rest) = readLE4 b := by
  match b, h with
  | b0 :: b1 :: b2 :: b3 :: tl, _ => simp [readLE4, List.getD]

/-- Go `MessageHeader` — `{Size, RequestID, ResponseTo, OpCode : int32}`.
Fields are modelled as naturals holding the 32-bit two's-complement bit
pattern (reduced mod `2^32` wherever the source casts to `int32`). -/
structure MessageHeader where
  Size : Nat
  RequestID : Nat
  ResponseTo : Nat
  OpCode : Nat
deriving DecidableEq

/-- Go `SimpleBSON` — one un-decoded document: a recorded size and the raw
byte span. -/
structure SimpleBSON where
  Size : Nat
  BSON : List Byte
deriving DecidableEq

/-- Go `CommandReplyMessage` — header plus the three document sections. -/
structure CommandReplyMessage where
  header : MessageHeader
  CommandReply : SimpleBSON
  Metadata : SimpleBSON
  OutputDocs : List SimpleBSON
deriving DecidableEq

/-- The 16 header bytes: the four `int32` fields little-endian (§6 wire
format). -/
def headerLE (h : MessageHeader) : List Byte :=
  le4 (h.Size % 4294967296) ++ le4 (h.RequestID % 4294967296) ++
    le4 (h.ResponseTo % 4294967296) ++ le4 (h.OpCode % 4294967296)

/-- Modelled from the spec: `MessageHeader.WriteInto` serialises the four
`int32` header fields little-endian into the first 16 bytes of the buffer
(§6 wire format). -/
def MessageHeader.WriteInto (h : MessageHeader) (buf : List Byte) : List Byte :=
  writeAt 0 (headerLE h) buf

/-- Modelled from the spec: `SimpleBSON.Copy` writes the document's byte
span into the buffer at the cursor and advances the cursor by the recorded
`Size` (§4.1: each consumed/produced span advances the cursor by exactly its
recorded size).  The write truncates at the end of the buffer, as Go's
`copy` does. -/
def SimpleBSON.Copy (sb : SimpleBSON) (loc : Nat) (buf : List Byte) : Nat × List Byte :=
  (loc + sb.Size, writeAt loc sb.BSON buf)

/-- `CommandReplyMessage.Serialize` (src/wire_command_reply.go): recomputes
the total size as 16 plus the document sizes, stores it (as `int32`, hence
mod `2^32`) into the header, allocates a buffer of that length, writes the
header and then copies the three document sections in order.  Returns the
updated message (Go mutates the receiver's header) together with the
buffer. -/
def CommandReplyMessage.Serialize (m : CommandReplyMessage) :
    CommandReplyMessage × List Byte :=
  let size := 16 + m.CommandReply.Size + m.Metadata.Size +
    (m.OutputDocs.map (fun d => d.Size)).sum
  let header : MessageHeader := { m.header with Size := size % 4294967296 }
  let buf0 := header.WriteInto (List.replicate size 0)
  let (loc1, buf1) := m.CommandReply.Copy 16 buf0
  let (loc2, buf2) := m.Metadata.Copy loc1 buf1
  let (_, buf3) := m.OutputDocs.foldl
    (fun (p : Nat × List Byte) d => d.Copy p.1 p.2) (loc2, buf2)
  ({ m with header := header }, buf3)

/-- Error taxonomy of the proxy core (spec §7).  The codec only ever
produces `MalformedMessage`. -/
inductive ProxyErr where
  | MalformedMessage
  | BackendUnavailable
  | ClientIOError
  | InterceptorError
deriving DecidableEq

/-- Modelled from the spec: `parseSimpleBSON` (not in the provided sources)
reads one document span: its size is self-declared in its own first 4 bytes
(standard BSON-style framing, §6), so a buffer shorter than 4 bytes, a
declared size below the 5-byte BSON minimum, or a declared size exceeding
the remaining buffer length is a `MalformedMessage` (§4.1). -/
def parseSimpleBSON (b : List Byte) : Except ProxyErr SimpleBSON :=
  if b.length < 4 then .error .MalformedMessage
  else if readLE4 b < 5 then .error .MalformedMessage
  else if b.length < readLE4 b then .error .MalformedMessage
  else .ok ⟨readLE4 b, b.take (readLE4 b)⟩

theorem parseSimpleBSON_ok_size {b : List Byte} {d : SimpleBSON}
    (h : parseSimpleBSON b = .ok d) :
    5 ≤ d.Size ∧ d.Size ≤ b.length ∧ d.BSON = b.take d.Size := by
  unfold parseSimpleBSON at h
  split at h
  · exact absurd h (by simp)
  · split at h
    · exact absurd h (by simp)
    · split at h
      · exact absurd h (by simp)
      · cases h
        refine ⟨?_, ?_, rfl⟩
        · show 5 ≤ readLE4 b
          omega
        · show readLE4 b ≤ b.length
          omega

/-- The trailing-documents loop of `parseCommandReplyMessage`
(src/wire_command_reply.go): while bytes remain, parse one document, advance
the cursor by its recorded size, and append it to the output sequence. -/
def parseOutputDocs (buf : List Byte) : Except ProxyErr (List SimpleBSON) :=
  if hb : buf.length = 0 then .ok []
  else
    match hp : parseSimpleBSON buf with
    | .error e => .error e
    | .ok doc =>
      match parseOutputDocs (buf.drop doc.Size) with
      | .error e => .error e
      | .ok rest => .ok (doc :: rest)
termination_by buf.length
decreasing_by
  have h5 := parseSimpleBSON_ok_size hp
  simp only [List.length_drop]
  omega

/-- `parseCommandReplyMessage` (src/wire_command_reply.go): parse the
CommandReply document, advance by its size, parse the Metadata document,
advance by its size, then collect all remaining bytes as OutputDocs. -/
def parseCommandReplyMessage (header : MessageHeader) (buf : List Byte) :
    Except ProxyErr CommandReplyMessage :=
  match parseSimpleBSON buf with
  | .error e => .error e
  | .ok commandReply =>
    match parseSimpleBSON (buf.drop commandReply.Size) with
    | .error e => .error e
    | .ok metadata =>
      match parseOutputDocs ((buf.drop commandReply.Size).drop metadata.Size) with
      | .error e => .error e
      | .ok docs => .ok ⟨header, commandReply, metadata, docs⟩

theorem parseOutputDocs_nil : parseOutputDocs [] = .ok [] := by
  rw [parseOutputDocs]
  rfl

theorem parseOutputDocs_cons {buf : List Byte} {doc : SimpleBSON} {rest : List SimpleBSON}
    (h0 : buf.length ≠ 0) (h : parseSimpleBSON buf = .ok doc)
    (hr : parseOutputDocs (buf.drop doc.Size) = .ok rest) :
    parseOutputDocs buf = .ok (doc :: rest) := by
  rw [parseOutputDocs, dif_neg h0]
  split
  · next e' heq =>
    rw [h] at heq
    cases heq
  · next doc' heq =>
    rw [h] at heq
    cases heq
    rw [hr]

/-- A document span is well formed in the sense of the wire format (§6):
its recorded size is at least the 5-byte BSON minimum, equals the length of
its byte span, and is self-declared in the span's own first 4 bytes. -/
def WfDoc (d : SimpleBSON) : Prop :=
  5 ≤ d.Size ∧ d.BSON.length = d.Size ∧ readLE4 d.BSON = d.Size

instance (d : SimpleBSON) : Decidable (WfDoc d) := by
  unfold WfDoc
  infer_instance

/-- All three document sections of a `CommandReplyMessage` are well formed. -/
def WfMsg (m : CommandReplyMessage) : Prop :=
  WfDoc m.CommandReply ∧ WfDoc m.Metadata ∧ ∀ d ∈ m.OutputDocs, WfDoc d

instance (m : CommandReplyMessage) : Decidable (WfMsg m) := by
  unfold WfMsg
  infer_instance

theorem parseSimpleBSON_front {d : SimpleBSON} (rest : List Byte) (hd : WfDoc d) :
    parseSimpleBSON (d.BSON ++ rest) = .ok d := by
  obtain ⟨h5, hlen, hself⟩ := hd
  have h4 : 4 ≤ d.BSON.length := by omega
  have hread : readLE4 (d.BSON ++ rest) = d.Size := by rw [readLE4_append _ _ h4, hself]
  unfold parseSimpleBSON
  rw [hread]
  rw [if_neg (by simp; omega), if_neg (by omega), if_neg (by simp; omega)]
  have htake : (d.BSON ++ rest).take d.Size = d.BSON := by
    rw [← hlen, List.take_left]
  rw [htake]

theorem parseOutputDocs_flatten : ∀ (docs : List SimpleBSON), (∀ d ∈ docs, WfDoc d) →
    parseOutputDocs ((docs.map (fun d => d.BSON)).flatten) = .ok docs
  | [], _ => by simpa using parseOutputDocs_nil
  | d :: docs, h => by
    have hd := h d (by simp)
    have hrest : ∀ x ∈ docs, WfDoc x := fun x hx => h x (by simp [hx])
    have hlen : d.BSON.length = d.Size := hd.2.1
    have h5 : 5 ≤ d.Size := hd.1
    refine parseOutputDocs_cons ?_ ?_ ?_
    · simp only [List.map_cons, List.flatten_cons, List.length_append]
      omega
    · simpa using parseSimpleBSON_front _ hd
    · have hdrop : ((d.BSON ++ (docs.map (fun x => x.BSON)).flatten).drop d.Size)
          = (docs.map (fun x => x.BSON)).flatten := by
        rw [← hlen, List.drop_left]
      simpa [hdrop] using parseOutputDocs_flatten docs hrest

/-- Parsing a well-formed concatenated payload recovers exactly the three
document sections. -/
theorem parseCommandReplyMessage_payload (header : MessageHeader)
    (c md : SimpleBSON) (docs : List SimpleBSON)
    (hc : WfDoc c) (hmd : WfDoc md) (hdocs : ∀ d ∈ docs, WfDoc d) :
    parseCommandReplyMessage header
      (c.BSON ++ md.BSON ++ (docs.map (fun d => d.BSON)).flatten)
      = .ok ⟨header, c, md, docs⟩ := by
  have hdrop1 : (c.BSON ++ (md.BSON ++ (docs.map (fun d => d.BSON)).flatten)).drop c.Size
      = md.BSON ++ (docs.map (fun d => d.BSON)).flatten := by
    rw [← hc.2.1, List.drop_left]
  have hdrop2 : (md.BSON ++ (docs.map (fun d => d.BSON)).flatten).drop md.Size
      = (docs.map (fun d => d.BSON)).flatten := by
    rw [← hmd.2.1, List.drop_left]
  unfold parseCommandReplyMessage
  rw [List.append_assoc]
  simp only [parseSimpleBSON_front _ hc, hdrop1, parseSimpleBSON_front _ hmd, hdrop2,
    parseOutputDocs_flatten docs hdocs]

theorem headerLE_length (h : MessageHeader) : (headerLE h).length = 16 := by
  simp [headerLE, le4]

theorem writeAt_zero (src buf : List Byte) : writeAt 0 src buf = overwrite src buf := by
  cases buf <;> cases src <;> simp [writeAt, overwrite]

/-- Copying a document list into the zero-filled tail of a buffer appends the
byte spans in order (each span filling exactly its recorded size). -/
theorem copyFold_append : ∀ (docs : List SimpleBSON) (pre zeros : List Byte),
    (∀ d ∈ docs, d.BSON.length = d.Size) →
    zeros.length = (docs.map (fun d => d.Size)).sum →
    docs.foldl (fun (p : Nat × List Byte) d => (p.1 + d.Size, writeAt p.1 d.BSON p.2))
        (pre.length, pre ++ zeros)
      = (pre.length + (docs.map (fun d => d.Size)).sum,
         pre ++ (docs.map (fun d => d.BSON)).flatten)
  | [], pre, zeros, _, hz => by
    have : zeros = [] := List.eq_nil_of_length_eq_zero (by simpa using hz)
    simp [this]
  | d :: docs, pre, zeros, h, hz => by
    have hd : d.BSON.length = d.Size := h d (by simp)
    have hrest : ∀ x ∈ docs, x.BSON.length = x.Size := fun x hx => h x (by simp [hx])
    have hzlen : zeros.length = d.Size + (docs.map (fun x => x.Size)).sum := by
      simpa using hz
    have hsplit : zeros = zeros.take d.Size ++ zeros.drop d.Size := (List.take_append_drop _ _).symm
    have htl : (zeros.take d.Size).length = d.BSON.length := by
      rw [List.length_take, hd]
      omega
    have hstep : ((pre.length + d.Size : Nat), writeAt pre.length d.BSON (pre ++ zeros))
        = ((pre ++ d.BSON).length, (pre ++ d.BSON) ++ zeros.drop d.Size) := by
      rw [writeAt_append]
      rw [hsplit, overwrite_append _ _ _ htl.symm]
      simp [hd]
    have hdlen : (zeros.drop d.Size).length = (docs.map (fun x => x.Size)).sum := by
      rw [List.length_drop]
      omega
    calc (d :: docs).foldl
          (fun (p : Nat × List Byte) x => (p.1 + x.Size, writeAt p.1 x.BSON p.2))
          (pre.length, pre ++ zeros)
        = docs.foldl (fun (p : Nat × List Byte) x => (p.1 + x.Size, writeAt p.1 x.BSON p.2))
            ((pre ++ d.BSON).length, (pre ++ d.BSON) ++ zeros.drop d.Size) := by
          rw [List.foldl_cons, hstep]
      _ = ((pre ++ d.BSON).length + (docs.map (fun x => x.Size)).sum,
           (pre ++ d.BSON) ++ (docs.map (fun x => x.BSON)).flatten) :=
          copyFold_append docs (pre ++ d.BSON) (zeros.drop d.Size) hrest hdlen
      _ = (pre.length + ((d :: docs).map (fun x => x.Size)).sum,
           pre ++ (((d :: docs).map (fun x => x.BSON)).flatten)) := by
          simp [hd]
          omega

theorem copyFold_length : ∀ (docs : List SimpleBSON) (p : Nat × List Byte),
    ((docs.foldl (fun (q : Nat × List Byte) d => (q.1 + d.Size, writeAt q.1 d.BSON q.2)) p).2).length
      = p.2.length
  | [], _ => rfl
  | d :: docs, p => by
    rw [List.foldl_cons]
    rw [copyFold_length docs (p.1 + d.Size, writeAt p.1 d.BSON p.2)]
    simp [writeAt_length]

/-- The serialized buffer always has exactly the recomputed length,
whatever the documents contain. -/
theorem Serialize_length (m : CommandReplyMessage) :
    (m.Serialize).2.length = 16 + m.CommandReply.Size + m.Metadata.Size +
      (m.OutputDocs.map (fun d => d.Size)).sum := by
  unfold CommandReplyMessage.Serialize MessageHeader.WriteInto
  simp only [SimpleBSON.Copy]
  rw [copyFold_length]
  simp [writeAt_length]

/-- When every document's recorded size matches its span length, the
serialized buffer is exactly the 16 header bytes followed by the three
document sections in order. -/
theorem Serialize_eq (m : CommandReplyMessage)
    (h1 : m.CommandReply.BSON.length = m.CommandReply.Size)
    (h2 : m.Metadata.BSON.length = m.Metadata.Size)
    (h3 : ∀ d ∈ m.OutputDocs, d.BSON.length = d.Size) :
    (m.Serialize).2 = headerLE (m.Serialize).1.header ++ m.CommandReply.BSON ++
      m.Metadata.BSON ++ (m.OutputDocs.map (fun d => d.BSON)).flatten := by
  obtain ⟨hdr, c, md, docs⟩ := m
  simp only at h1 h2 h3
  unfold CommandReplyMessage.Serialize MessageHeader.WriteInto SimpleBSON.Copy
  simp only
  set S := (docs.map (fun d => d.Size)).sum with hS
  set H : MessageHeader := { hdr with Size := (16 + c.Size + md.Size + S) % 4294967296 } with hH
  have hz : List.replicate (16 + c.Size + md.Size + S) (0 : Byte)
      = List.replicate 16 0 ++ List.replicate (c.Size + md.Size + S) 0 := by
    rw [← List.replicate_add]
    ring_nf
  have e0 : writeAt 0 (headerLE H) (List.replicate (16 + c.Size + md.Size + S) 0)
      = headerLE H ++ List.replicate (c.Size + md.Size + S) 0 := by
    rw [writeAt_zero, hz, overwrite_append]
    rw [headerLE_length]
    simp
  have hz1 : List.replicate (c.Size + md.Size + S) (0 : Byte)
      = List.replicate c.Size 0 ++ List.replicate (md.Size + S) 0 := by
    rw [← List.replicate_add]
    ring_nf
  have e1 : writeAt 16 c.BSON (headerLE H ++ List.replicate (c.Size + md.Size + S) 0)
      = (headerLE H ++ c.BSON) ++ List.replicate (md.Size + S) 0 := by
    rw [show (16 : Nat) = (headerLE H).length from (headerLE_length H).symm]
    rw [writeAt_append, hz1, overwrite_append _ _ _ (by simp [h1])]
    simp
  have hz2 : List.replicate (md.Size + S) (0 : Byte)
      = List.replicate md.Size 0 ++ List.replicate S 0 := by
    rw [← List.replicate_add]
  have e2 : writeAt (16 + c.Size) md.BSON
        ((headerLE H ++ c.BSON) ++ List.replicate (md.Size + S) 0)
      = ((headerLE H ++ c.BSON) ++ md.BSON) ++ List.replicate S 0 := by
    rw [show 16 + c.Size = ((headerLE H ++ c.BSON)).length by simp [headerLE_length, h1]]
    rw [writeAt_append, hz2, overwrite_append _ _ _ (by simp [h2])]
    simp
  have e3 := copyFold_append docs ((headerLE H ++ c.BSON) ++ md.BSON)
    (List.replicate S 0) h3 (by simp [hS])
  have hloc2 : 16 + c.Size + md.Size = (((headerLE H ++ c.BSON) ++ md.BSON)).length := by
    simp [headerLE_length, h1, h2]
    omega
  rw [e0, e1, e2]
  rw [hloc2, e3]

/-- Round trip: parsing the serialized buffer (header stripped) of a
well-formed message recovers the serialized message exactly. -/
theorem Serialize_parse (m : CommandReplyMessage) (h : WfMsg m) :
    parseCommandReplyMessage (m.Serialize).1.header ((m.Serialize).2.drop 16)
      = .ok (m.Serialize).1 := by
  obtain ⟨hc, hmd, hdocs⟩ := h
  rw [Serialize_eq m hc.2.1 hmd.2.1 (fun d hd => (hdocs d hd).2.1)]
  rw [List.append_assoc, List.append_assoc]
  rw [show (16 : Nat) = (headerLE (m.Serialize).1.header).length from (headerLE_length _).symm]
  rw [List.drop_left]
  rw [← List.append_assoc]
  exact parseCommandReplyMessage_payload _ _ _ _ hc hmd hdocs

/-- A BSON value as far as the error model and the interceptor inspect one:
the claims only look at keys, numbers and strings. -/
inductive BVal where
  | int (i : Int)
  | str (s : String)
deriving DecidableEq

/-- A decoded first-level BSON document (Go `bson.D`): an ordered key/value
sequence. -/
abbrev BDoc := List (String × BVal)

/-- Go `MongoError` (src/unnamed/part_001): an underlying cause, a numeric
code, a code name and an extra-info string.  The cause is modelled as
`Option String` — `some s` is a non-nil Go `error` whose `Error()` method
returns `s`; `none` is a nil cause. -/
structure MongoError where
  err : Option String
  code : Int
  codeName : String
  errInfo : String
deriving DecidableEq

/-- Go `NewMongoError` (src/unnamed/part_001): accepts any cause, also a
nil one, and leaves `errInfo` empty. -/
def NewMongoError (err : Option String) (code : Int) (codeName : String) : MongoError :=
  ⟨err, code, codeName, ""⟩

/-- Go `NewMongoErrorWithInfo` (src/unnamed/part_001). -/
def NewMongoErrorWithInfo (err : Option String) (code : Int) (codeName : String)
    (errInfo : String) : MongoError :=
  ⟨err, code, codeName, errInfo⟩

/-- Go `MongoError.GetErrorInfo` (src/unnamed/part_001). -/
def MongoError.GetErrorInfo (me : MongoError) : String := me.errInfo

/-- Go `MongoError.ToBSON` (src/unnamed/part_001): starts from `{ok: 0}`,
appends `errmsg` only when the cause is non-nil, then appends `code` and
`codeName`.  Note: the source never appends the `errInfo` field. -/
def MongoError.ToBSON (me : MongoError) : BDoc :=
  let doc : BDoc := [("ok", .int 0)]
  let doc := match me.err with
    | some msg => doc ++ [("errmsg", .str msg)]
    | none => doc
  doc ++ [("code", .int me.code), ("codeName", .str me.codeName)]

/-- Go `MongoError.GetCode` (src/unnamed/part_001). -/
def MongoError.GetCode (me : MongoError) : Int := me.code

/-- Go `MongoError.GetCodeName` (src/unnamed/part_001). -/
def MongoError.GetCodeName (me : MongoError) : String := me.codeName

/-- Go `MongoError.Error` (src/unnamed/part_001): formats
`"code=<code> codeName=<codeName> errmsg = <cause message>"`, calling the
cause's `Error()` method unconditionally.  With a nil cause the Go call
panics; the panic is modelled as `none`. -/
def MongoError.Error (me : MongoError) : Option String :=
  me.err.map fun msg =>
    "code=" ++ toString me.code ++ " codeName=" ++ me.codeName ++ " errmsg = " ++ msg

/-- Go `QueryMessage` as far as the interceptor inspects it: the namespace
and the query document.  The query document is modelled already decoded
(Go keeps it as a `SimpleBSON` and decodes with `ToBSOND`). -/
structure QueryMessage where
  header : MessageHeader
  Namespace : String
  Query : BDoc
deriving DecidableEq

/-- The `Message` interface as far as the interceptor dispatches on it: a
query message, a command reply, or any other variant (opaque). -/
inductive Message where
  | query (q : QueryMessage)
  | commandReply (m : CommandReplyMessage)
  | other (tag : Nat)
deriving DecidableEq

/-- ASCII lowering of one character (the only case Go's `strings.ToLower`
needs for ASCII command names). -/
def lowerChar (c : Char) : Char :=
  if 'A' ≤ c ∧ c ≤ 'Z' then Char.ofNat (c.toNat + 32) else c

/-- ASCII lowering of a string (Go `strings.ToLower` restricted to ASCII,
which covers every command name compared against). -/
def lowerString (s : String) : String :=
  ⟨s.data.map lowerChar⟩

/-- Modelled from the spec: `NamespaceIsCommand` recognises a command
namespace (MongoDB command namespaces end in the reserved `$cmd`
collection, so the test is for the suffix `".$cmd"`). -/
def NamespaceIsCommand (ns : String) : Bool :=
  decide (ns.data.drop (ns.data.length - 5) = ['.', '$', 'c', 'm', 'd'])

/-- Modelled from the spec (§4.2): `BSONIndexOf` scans the decoded
key/value sequence linearly and returns the index of the first
case-sensitive exact key match, or -1 when the key is absent. -/
def BSONIndexOf (doc : BDoc) (key : String) : Int :=
  match doc with
  | [] => -1
  | (k, _) :: rest =>
    if k = key then 0
    else if BSONIndexOf rest key < 0 then -1 else BSONIndexOf rest key + 1

/-- The sample interceptor's `InterceptClientToMongo`
(src/unnamed/part_000): only a `QueryMessage` against a command namespace
whose command name — the first key of the query document, lowercased — is
"ismaster" is touched: the first "client" field, if any, is spliced out of
the query document.  Every other message is returned unchanged.  The second
and third components model the returned `ResponseInterceptor` (always nil
here) and `error` (always nil here). -/
def InterceptClientToMongo (m : Message) : Message × Option Unit × Option ProxyErr :=
  match m with
  | .query mm =>
    if ¬ NamespaceIsCommand mm.Namespace then (m, none, none)
    else
      match mm.Query with
      | [] => (m, none, none)
      | (k, _) :: _ =>
        if lowerString k ≠ "ismaster" then (m, none, none)
        else
          let query := if 0 ≤ BSONIndexOf mm.Query "client"
            then mm.Query.take (BSONIndexOf mm.Query "client").toNat ++
              mm.Query.drop ((BSONIndexOf mm.Query "client").toNat + 1)
            else mm.Query
          (.query { mm with Query := query }, none, none)
  | _ => (m, none, none)

/-- Removal of the first occurrence of a key, as the spec words the
`removeKey` helper (§4.2): first match wins, all other fields are preserved
in order. -/
def eraseFirstKey (key : String) : BDoc → BDoc
  | [] => []
  | (k, v) :: rest => if k = key then rest else (k, v) :: eraseFirstKey key rest

/-- The index-splice the interceptor performs equals first-occurrence
removal. -/
theorem splice_eq_eraseFirstKey (key : String) : ∀ (doc : BDoc),
    (if 0 ≤ BSONIndexOf doc key
      then doc.take (BSONIndexOf doc key).toNat ++ doc.drop ((BSONIndexOf doc key).toNat + 1)
      else doc) = eraseFirstKey key doc
  | [] => by simp [BSONIndexOf, eraseFirstKey]
  | (k, v) :: rest => by
    by_cases hk : k = key
    · simp [BSONIndexOf, eraseFirstKey, hk]
    · have ih := splice_eq_eraseFirstKey key rest
      by_cases hneg : BSONIndexOf rest key < 0
      · rw [if_neg (by simp [BSONIndexOf, hk, hneg])]
        rw [eraseFirstKey, if_neg hk]
        rw [if_neg (by omega)] at ih
        rw [← ih]
      · have h0 : 0 ≤ BSONIndexOf rest key := by omega
        have hidx : BSONIndexOf ((k, v) :: rest) key = BSONIndexOf rest key + 1 := by
          rw [BSONIndexOf]
          simp [hk, hneg]
        rw [if_pos (by omega)]
        rw [hidx]
        have htoNat : (BSONIndexOf rest key + 1).toNat = (BSONIndexOf rest key).toNat + 1 := by
          omega
        rw [htoNat]
        rw [List.take_succ_cons, List.drop_succ_cons]
        rw [eraseFirstKey, if_neg hk]
        rw [if_pos h0] at ih
        rw [List.cons_append, ih]

/-- When a key occurs at most once, removing its first occurrence removes it
entirely. -/
theorem eraseFirstKey_not_mem (key : String) : ∀ (doc : BDoc),
    (doc.map Prod.fst).count key ≤ 1 →
    key ∉ (eraseFirstKey key doc).map Prod.fst
  | [], _ => by simp [eraseFirstKey]
  | (k, v) :: rest, h => by
    by_cases hk : k = key
    · rw [eraseFirstKey, if_pos hk]
      intro hmem
      have hpos : 0 < (rest.map Prod.fst).count key := List.count_pos_iff.mpr hmem
      have hcount : (((k, v) :: rest).map Prod.fst).count key
          = (rest.map Prod.fst).count key + 1 := by
        simp [List.count_cons, hk]
      omega
    · rw [eraseFirstKey, if_neg hk]
      simp only [List.map_cons, List.mem_cons]
      rintro (rfl | hmem)
      · exact hk rfl
      · exact eraseFirstKey_not_mem key rest (by simpa [List.count_cons, hk] using h) hmem

/-- Modelled from the spec (§4.5): the backend connection pool's state — the
idle reusable connections (as ids), the monotonic created-count, and the id
to give the next opened socket. -/
structure PoolState where
  idle : List Nat
  created : Nat
  nextId : Nat
deriving DecidableEq

/-- Modelled from the spec (§4.5): one pool operation.  `acquire ok` asks
for a connection, `ok` telling whether opening a brand-new socket would
succeed (creation failures surface as `BackendUnavailable` and do not count
as creations); `release c healthy` returns connection `c`. -/
inductive PoolOp where
  | acquire (ok : Bool)
  | release (conn : Nat) (healthy : Bool)
deriving DecidableEq

/-- Modelled from the spec (§4.5): `acquire` hands out an idle connection
when one exists; otherwise it opens a new socket and increments the
created-count (only when the open succeeds).  `release` returns a healthy
connection to the idle set and discards an unhealthy one; it never touches
the created-count. -/
def poolStep (s : PoolState) : PoolOp → PoolState
  | .acquire ok =>
    match s.idle with
    | c :: rest => { s with idle := rest }
    | [] =>
      if ok then { idle := [], created := s.created + 1, nextId := s.nextId + 1 }
      else s
  | .release c healthy =>
    if healthy then { s with idle := c :: s.idle } else s

/-- Running a sequence of pool operations. -/
def poolRun (s : PoolState) (ops : List PoolOp) : PoolState :=
  ops.foldl poolStep s

/-- The number of successful new-socket creations a run performs: the
acquire operations that find the idle set empty and whose socket open
succeeds. -/
def poolCreations (s : PoolState) : List PoolOp → Nat
  | [] => 0
  | op :: ops =>
    (match op, s.idle with
     | .acquire true, [] => 1
     | _, _ => 0) + poolCreations (poolStep s op) ops

/-- Modelled from the spec (§4.6, §7): the outcome of one forward attempt
against the backend. -/
inductive AttemptOutcome where
  | success
  | backendFailure
  | clientFailure
deriving DecidableEq

/-- Observable events of one request cycle of the proxy session. -/
inductive SessionEvent where
  | forward
  | releaseUnhealthy
  | acquireFresh
deriving DecidableEq

/-- How a request cycle ends: a normal reply, a synthesized `MongoError`
reply (client connection stays open in both cases), or the session being
closed because the client connection itself failed. -/
inductive CycleResult where
  | normalReply
  | mongoErrorReply
  | sessionClosed
deriving DecidableEq

/-- Modelled from the spec (§4.6 step 4, §9): the bounded retry loop inside
the session's forward step.  `outcomes n` is the result of attempt `n`;
`retriesLeft` is how many more fresh-connection retries are allowed.  On a
backend failure with retries left the session releases the connection as
unhealthy, acquires a fresh one and retries; with none left it escalates a
`MongoError` reply, keeping the client connection open.  A client failure
closes the session. -/
def forwardWithRetry (outcomes : Nat → AttemptOutcome) :
    Nat → Nat → List SessionEvent × CycleResult
  | retriesLeft, attempt =>
    match outcomes attempt with
    | .success => ([.forward], .normalReply)
    | .clientFailure => ([.forward], .sessionClosed)
    | .backendFailure =>
      match retriesLeft with
      | 0 => ([.forward], .mongoErrorReply)
      | n + 1 =>
        let r := forwardWithRetry outcomes n (attempt + 1)
        (.forward :: .releaseUnhealthy :: .acquireFresh :: r.1, r.2)

/-- Modelled from the spec (§4.6, §9): one request cycle forwards with a
retry budget of exactly one. -/
def runRequestCycle (outcomes : Nat → AttemptOutcome) : List SessionEvent × CycleResult :=
  forwardWithRetry outcomes 1 0

theorem parseSimpleBSON_error {b : List Byte} {e : ProxyErr}
    (h : parseSimpleBSON b = .error e) : e = .MalformedMessage := by
  unfold parseSimpleBSON at h
  split at h
  · cases h
    rfl
  · split at h
    · cases h
      rfl
    · split at h
      · cases h
        rfl
      · cases h

theorem parseOutputDocs_error_aux : ∀ (n : Nat) (buf : List Byte) (e : ProxyErr),
    buf.length ≤ n → parseOutputDocs buf = .error e → e = .MalformedMessage := by
  intro n
  induction n with
  | zero =>
    intro buf e hlen h
    rw [parseOutputDocs, dif_pos (by omega)] at h
    cases h
  | succ n ih =>
    intro buf e hlen h
    rw [parseOutputDocs] at h
    split at h
    · cases h
    · split at h
      · next e' heq =>
        cases h
        exact parseSimpleBSON_error heq
      · next doc heq =>
        split at h
        · next e' heq2 =>
          cases h
          obtain ⟨h5, hle, _⟩ := parseSimpleBSON_ok_size heq
          exact ih (buf.drop doc.Size) e (by simp only [List.length_drop]; omega) heq2
        · cases h

theorem parseOutputDocs_error {buf : List Byte} {e : ProxyErr}
    (h : parseOutputDocs buf = .error e) : e = .MalformedMessage :=
  parseOutputDocs_error_aux buf.length buf e (Nat.le_refl _) h

theorem parseOutputDocs_ok_aux : ∀ (n : Nat) (buf : List Byte) (docs : List SimpleBSON),
    buf.length ≤ n → parseOutputDocs buf = .ok docs →
    buf = (docs.map (fun d => d.BSON)).flatten ∧ ∀ d ∈ docs, d.BSON.length = d.Size := by
  intro n
  induction n with
  | zero =>
    intro buf docs hlen h
    rw [parseOutputDocs, dif_pos (by omega)] at h
    cases h
    have : buf = [] := List.eq_nil_of_length_eq_zero (by omega)
    simp [this]
  | succ n ih =>
    intro buf docs hlen h
    rw [parseOutputDocs] at h
    split at h
    · next hb =>
      cases h
      simp [List.eq_nil_of_length_eq_zero hb]
    · next hb =>
      split at h
      · cases h
      · next doc heq =>
        split at h
        · cases h
        · next rest heq2 =>
          cases h
          obtain ⟨h5, hle, hbs⟩ := parseSimpleBSON_ok_size heq
          have ihr := ih (buf.drop doc.Size) rest
            (by simp only [List.length_drop]; omega) heq2
          have hlend : doc.BSON.length = doc.Size := by
            rw [hbs, List.length_take]
            omega
          constructor
          · simp only [List.map_cons, List.flatten_cons]
            rw [← ihr.1, hbs]
            exact (List.take_append_drop _ _).symm
          · intro d hd
            rcases List.mem_cons.mp hd with rfl | hmem
            · exact hlend
            · exact ihr.2 d hmem

theorem parseOutputDocs_ok {buf : List Byte} {docs : List SimpleBSON}
    (h : parseOutputDocs buf = .ok docs) :
    buf = (docs.map (fun d => d.BSON)).flatten ∧ ∀ d ∈ docs, d.BSON.length = d.Size :=
  parseOutputDocs_ok_aux buf.length buf docs (Nat.le_refl _) h

theorem poolStep_created (s : PoolState) (op : PoolOp) :
    (poolStep s op).created
      = s.created + (match op, s.idle with | .acquire true, [] => 1 | _, _ => 0) := by
  cases op with
  | acquire ok =>
    cases hidle : s.idle with
    | nil => cases ok <;> simp [poolStep, hidle]
    | cons c rest => cases ok <;> simp [poolStep, hidle]
  | release c healthy => cases healthy <;> simp [poolStep]

theorem poolRun_created : ∀ (ops : List PoolOp) (s : PoolState),
    (poolRun s ops).created = s.created + poolCreations s ops
  | [], s => by simp [poolRun, poolCreations]
  | op :: ops, s => by
    rw [show poolRun s (op :: ops) = poolRun (poolStep s op) ops from rfl]
    rw [poolRun_created ops (poolStep s op)]
    rw [show poolCreations s (op :: ops)
        = (match op, s.idle with | .acquire true, [] => 1 | _, _ => 0)
          + poolCreations (poolStep s op) ops from rfl]
    rw [poolStep_created]
    omega

theorem poolRun_monotone (ops : List PoolOp) (s : PoolState) :
    s.created ≤ (poolRun s ops).created := by
  rw [poolRun_created]
  omega

/-- Concrete message for the round-trip counterexample: every recorded size
equals its span length, but the spans do not begin with their own sizes. -/
def sizesOnlyMsg : CommandReplyMessage :=
  ⟨⟨0, 1, 2, 3⟩, ⟨5, [9, 9, 9, 9, 9]⟩, ⟨5, [5, 0, 0, 0, 0]⟩, []⟩

/-- C1 (counterexample): a `CommandReplyMessage` whose documents are
well-formed in the claim's sense — each recorded `Size` equals the length of
its byte span — for which parsing the serialized output does not return the
message: the parser reads each document's size from the span's own first 4
bytes, so a span that does not self-declare its size parses differently
(here: `MalformedMessage`). -/
theorem roundtrip_counterexample_sizes_only :
    sizesOnlyMsg.CommandReply.BSON.length = sizesOnlyMsg.CommandReply.Size
    ∧ sizesOnlyMsg.Metadata.BSON.length = sizesOnlyMsg.Metadata.Size
    ∧ (∀ d ∈ sizesOnlyMsg.OutputDocs, d.BSON.length = d.Size)
    ∧ parseCommandReplyMessage (sizesOnlyMsg.Serialize).1.header
        ((sizesOnlyMsg.Serialize).2.drop 16)
      = .error .MalformedMessage :=
  ⟨rfl, rfl, by simp [sizesOnlyMsg], rfl⟩

/-- C1 (amended): for every `CommandReplyMessage` whose documents are
well-formed in the wire-format sense — each recorded `Size` equals the
length of its byte span, is at least the 5-byte BSON minimum, and is
self-declared in the span's own first 4 bytes — parsing the output of
`Serialize` (after the 16 header bytes) succeeds and returns a message
whose `CommandReply`, `Metadata`, `OutputDocs` and header equal those of
the serialized message. -/
theorem serialize_parse_roundtrip (m : CommandReplyMessage) (h : WfMsg m) :
    parseCommandReplyMessage (m.Serialize).1.header ((m.Serialize).2.drop 16)
      = .ok (m.Serialize).1
    ∧ (m.Serialize).1.CommandReply = m.CommandReply
    ∧ (m.Serialize).1.Metadata = m.Metadata
    ∧ (m.Serialize).1.OutputDocs = m.OutputDocs :=
  ⟨Serialize_parse m h, rfl, rfl, rfl⟩

/-- Witness for C1 at a concrete well-formed message. -/
theorem serialize_parse_roundtrip_witness :
    WfMsg ⟨⟨0, 1, 2, 3⟩, ⟨5, [5, 0, 0, 0, 7]⟩, ⟨5, [5, 0, 0, 0, 8]⟩, [⟨5, [5, 0, 0, 0, 9]⟩]⟩
    ∧ parseCommandReplyMessage
        ((⟨⟨0, 1, 2, 3⟩, ⟨5, [5, 0, 0, 0, 7]⟩, ⟨5, [5, 0, 0, 0, 8]⟩,
          [⟨5, [5, 0, 0, 0, 9]⟩]⟩ : CommandReplyMessage).Serialize).1.header
        (((⟨⟨0, 1, 2, 3⟩, ⟨5, [5, 0, 0, 0, 7]⟩, ⟨5, [5, 0, 0, 0, 8]⟩,
          [⟨5, [5, 0, 0, 0, 9]⟩]⟩ : CommandReplyMessage).Serialize).2.drop 16)
      = .ok ((⟨⟨0, 1, 2, 3⟩, ⟨5, [5, 0, 0, 0, 7]⟩, ⟨5, [5, 0, 0, 0, 8]⟩,
          [⟨5, [5, 0, 0, 0, 9]⟩]⟩ : CommandReplyMessage).Serialize).1 :=
  ⟨by decide,
   (serialize_parse_roundtrip
     ⟨⟨0, 1, 2, 3⟩, ⟨5, [5, 0, 0, 0, 7]⟩, ⟨5, [5, 0, 0, 0, 8]⟩, [⟨5, [5, 0, 0, 0, 9]⟩]⟩
     (by decide)).1⟩

/-- C2: `Serialize` recomputes the total size as 16 plus the sum of the
document sizes: the returned buffer has exactly that length, the header's
`Size` field is set to exactly that value (as an `int32` bit pattern, hence
mod `2^32`, which is the value itself whenever it fits), and nothing of the
result depends on whatever `Size` the header held before the call. -/
theorem serialize_recomputes_header_size (m : CommandReplyMessage) :
    (m.Serialize).2.length
      = 16 + m.CommandReply.Size + m.Metadata.Size + (m.OutputDocs.map (fun d => d.Size)).sum
    ∧ (m.Serialize).1.header.Size
      = (16 + m.CommandReply.Size + m.Metadata.Size
          + (m.OutputDocs.map (fun d => d.Size)).sum) % 4294967296
    ∧ (16 + m.CommandReply.Size + m.Metadata.Size
          + (m.OutputDocs.map (fun d => d.Size)).sum < 4294967296 →
        (m.Serialize).1.header.Size
          = 16 + m.CommandReply.Size + m.Metadata.Size
            + (m.OutputDocs.map (fun d => d.Size)).sum)
    ∧ ∀ s : Nat,
        CommandReplyMessage.Serialize { m with header := { m.header with Size := s } }
          = m.Serialize := by
  refine ⟨Serialize_length m, rfl, ?_, fun s => rfl⟩
  intro hlt
  show (16 + m.CommandReply.Size + m.Metadata.Size
      + (m.OutputDocs.map (fun d => d.Size)).sum) % 4294967296 = _
  exact Nat.mod_eq_of_lt hlt

/-- Witness for C2 at a concrete message carrying a stale header size. -/
theorem serialize_recomputes_header_size_witness :
    ((⟨⟨999, 1, 2, 3⟩, ⟨5, [5, 0, 0, 0, 7]⟩, ⟨6, [6, 0, 0, 0, 8, 8]⟩,
        []⟩ : CommandReplyMessage).Serialize).1.header.Size = 27 :=
  (serialize_recomputes_header_size
    ⟨⟨999, 1, 2, 3⟩, ⟨5, [5, 0, 0, 0, 7]⟩, ⟨6, [6, 0, 0, 0, 8, 8]⟩, []⟩).2.2.1 (by decide)

/-- C3: (i) a document whose declared size exceeds the remaining buffer
parses to `MalformedMessage`; (ii) on success the declared size never
exceeds the remaining buffer, so every cursor advance
(`buf = buf[doc.Size:]`) in `parseCommandReplyMessage` stays in range; and
(iii) on every byte input whatsoever the parser terminates with either a
message or a `MalformedMessage` error — it never produces any other error
and, being a total function, never panics. -/
theorem parse_malformed_never_out_of_range :
    (∀ b : List Byte, 4 ≤ b.length → b.length < readLE4 b →
        parseSimpleBSON b = .error .MalformedMessage)
    ∧ (∀ (b : List Byte) (d : SimpleBSON), parseSimpleBSON b = .ok d →
        d.Size ≤ b.length)
    ∧ (∀ (hdr : MessageHeader) (buf : List Byte),
        (∃ m, parseCommandReplyMessage hdr buf = .ok m)
        ∨ parseCommandReplyMessage hdr buf = .error .MalformedMessage) := by
  refine ⟨?_, ?_, ?_⟩
  · intro b h4 hover
    unfold parseSimpleBSON
    rw [if_neg (by omega)]
    by_cases h5 : readLE4 b < 5
    · rw [if_pos h5]
    · rw [if_neg h5, if_pos hover]
  · intro b d h
    exact (parseSimpleBSON_ok_size h).2.1
  · intro hdr buf
    cases hcb : parseSimpleBSON buf with
    | error e =>
      right
      simp only [parseCommandReplyMessage, hcb, parseSimpleBSON_error hcb]
    | ok c =>
      cases hmd : parseSimpleBSON (buf.drop c.Size) with
      | error e =>
        right
        simp only [parseCommandReplyMessage, hcb, hmd, parseSimpleBSON_error hmd]
      | ok md =>
        cases hod : parseOutputDocs ((buf.drop c.Size).drop md.Size) with
        | error e =>
          right
          simp only [parseCommandReplyMessage, hcb, hmd, hod, parseOutputDocs_error hod]
        | ok docs =>
          left
          exact ⟨⟨hdr, c, md, docs⟩, by simp only [parseCommandReplyMessage, hcb, hmd, hod]⟩

/-- Witness for C3: an oversized declared document size is rejected, and a
successful parse stays within the buffer. -/
theorem parse_malformed_never_out_of_range_witness :
    parseSimpleBSON [200, 0, 0, 0, 1] = .error .MalformedMessage
    ∧ (⟨5, [5, 0, 0, 0, 0]⟩ : SimpleBSON).Size ≤ ([5, 0, 0, 0, 0] : List Byte).length
    ∧ ((∃ m, parseCommandReplyMessage ⟨0, 0, 0, 0⟩ [1, 2] = .ok m)
        ∨ parseCommandReplyMessage ⟨0, 0, 0, 0⟩ [1, 2] = .error .MalformedMessage) :=
  ⟨parse_malformed_never_out_of_range.1 [200, 0, 0, 0, 1] (by decide) (by decide),
   parse_malformed_never_out_of_range.2.1 [5, 0, 0, 0, 0] ⟨5, [5, 0, 0, 0, 0]⟩ rfl,
   parse_malformed_never_out_of_range.2.2 ⟨0, 0, 0, 0⟩ [1, 2]⟩

/-- C4 (bug evidence): a `MongoError` carrying a non-empty `errInfo`
("extra", observable through `GetErrorInfo`) whose `ToBSON` document
nevertheless contains no `errInfo` field at all — the source's `ToBSON`
never appends it, although the struct stores it, `NewMongoErrorWithInfo`
exists to set it, and the spec's wire shape includes it. -/
theorem toBSON_drops_errInfo :
    (NewMongoErrorWithInfo (some "boom") 59 "CommandNotFound" "extra").GetErrorInfo
      = "extra"
    ∧ (NewMongoErrorWithInfo (some "boom") 59 "CommandNotFound" "extra").ToBSON
      = [("ok", .int 0), ("errmsg", .str "boom"), ("code", .int 59),
         ("codeName", .str "CommandNotFound")]
    ∧ "errInfo" ∉ ((NewMongoErrorWithInfo (some "boom") 59 "CommandNotFound"
        "extra").ToBSON).map Prod.fst :=
  ⟨rfl, rfl, by decide⟩

/-- C5: for every `MongoError`, `ToBSON` produces exactly
`{ok: 0}`, then `errmsg` (with the cause's message) if and only if the
cause is non-nil, then `code` and `codeName` in that order; in particular
the first element is always `("ok", 0)`. -/
theorem toBSON_shape (me : MongoError) :
    me.ToBSON = [("ok", BVal.int 0)]
      ++ (match me.err with | some msg => [("errmsg", BVal.str msg)] | none => [])
      ++ [("code", BVal.int me.code), ("codeName", BVal.str me.codeName)]
    ∧ me.ToBSON.head? = some ("ok", BVal.int 0)
    ∧ (("errmsg" ∈ me.ToBSON.map Prod.fst) ↔ me.err ≠ none) := by
  unfold MongoError.ToBSON
  cases h : me.err with
  | none => refine ⟨rfl, rfl, by simp⟩
  | some msg => refine ⟨rfl, rfl, by simp⟩

/-- C10: `MongoError.Error` is total only with a non-nil cause: it then
returns `"code=<code> codeName=<codeName> errmsg = <cause message>"`; with
a nil cause it dereferences the nil error (modelled `none` — the Go code
panics), even though `NewMongoError` accepts a nil cause and `ToBSON`,
`GetCode`, `GetCodeName` and `GetErrorInfo` all produce values for it. -/
theorem mongoError_error_requires_cause :
    (∀ (me : MongoError) (msg : String), me.err = some msg →
        me.Error = some ("code=" ++ toString me.code ++ " codeName=" ++ me.codeName
          ++ " errmsg = " ++ msg))
    ∧ (∀ me : MongoError, me.err = none → me.Error = none)
    ∧ (∀ (code : Int) (codeName : String),
        (NewMongoError none code codeName).err = none
        ∧ (NewMongoError none code codeName).ToBSON
          = [("ok", .int 0), ("code", .int code), ("codeName", .str codeName)]
        ∧ (NewMongoError none code codeName).GetCode = code
        ∧ (NewMongoError none code codeName).GetCodeName = codeName
        ∧ (NewMongoError none code codeName).GetErrorInfo = "") := by
  refine ⟨?_, ?_, ?_⟩
  · intro me msg h
    unfold MongoError.Error
    rw [h]
    rfl
  · intro me h
    unfold MongoError.Error
    rw [h]
    rfl
  · intro code codeName
    exact ⟨rfl, rfl, rfl, rfl, rfl⟩

/-- Witness for C10: with cause "socket reset" the formatted string, and
with a nil cause the accessors still produce values. -/
theorem mongoError_error_requires_cause_witness :
    (NewMongoError (some "socket reset") 11 "X").Error
      = some "code=11 codeName=X errmsg = socket reset"
    ∧ (NewMongoError none 11 "X").Error = none :=
  ⟨mongoError_error_requires_cause.1 (NewMongoError (some "socket reset") 11 "X")
      "socket reset" rfl,
   mongoError_error_requires_cause.2.1 (NewMongoError none 11 "X") rfl⟩

/-- C6: whenever `parseCommandReplyMessage` succeeds, the input buffer is
exactly the CommandReply span, then the Metadata span, then the remaining
output-document spans in buffer order and nothing else; each consumed
span's length equals its recorded size (the cursor advances by exactly that
much), and the returned message carries the given header. -/
theorem parse_consumes_docs_sequentially (hdr : MessageHeader) (buf : List Byte)
    (m : CommandReplyMessage) (h : parseCommandReplyMessage hdr buf = .ok m) :
    buf = m.CommandReply.BSON ++ m.Metadata.BSON
      ++ (m.OutputDocs.map (fun d => d.BSON)).flatten
    ∧ m.CommandReply.BSON.length = m.CommandReply.Size
    ∧ m.Metadata.BSON.length = m.Metadata.Size
    ∧ (∀ d ∈ m.OutputDocs, d.BSON.length = d.Size)
    ∧ m.header = hdr := by
  unfold parseCommandReplyMessage at h
  split at h
  · cases h
  · next c hcb =>
    split at h
    · cases h
    · next md hmd =>
      split at h
      · cases h
      · next docs hod =>
        cases h
        obtain ⟨hc5, hcle, hcbs⟩ := parseSimpleBSON_ok_size hcb
        obtain ⟨hm5, hmle, hmbs⟩ := parseSimpleBSON_ok_size hmd
        obtain ⟨hflat, hdocs⟩ := parseOutputDocs_ok hod
        have hclen : c.BSON.length = c.Size := by
          rw [hcbs, List.length_take]
          omega
        have hmlen : md.BSON.length = md.Size := by
          rw [hmbs, List.length_take]
          omega
        refine ⟨?_, hclen, hmlen, hdocs, rfl⟩
        calc buf = buf.take c.Size ++ buf.drop c.Size := (List.take_append_drop _ _).symm
          _ = c.BSON ++ ((buf.drop c.Size).take md.Size ++ (buf.drop c.Size).drop md.Size) := by
              rw [← hcbs, List.take_append_drop]
          _ = c.BSON ++ (md.BSON ++ (docs.map (fun d => d.BSON)).flatten) := by
              rw [← hmbs, ← hflat]
          _ = c.BSON ++ md.BSON ++ (docs.map (fun d => d.BSON)).flatten := by
              rw [List.append_assoc]

/-- Witness for C6: a concrete successful parse splits the buffer into the
two document spans (and no trailing output documents). -/
theorem parse_consumes_docs_sequentially_witness :
    ([5, 0, 0, 0, 1, 5, 0, 0, 0, 2] : List Byte)
      = [5, 0, 0, 0, 1] ++ [5, 0, 0, 0, 2] ++ [] :=
  (parse_consumes_docs_sequentially ⟨7, 8, 9, 10⟩ [5, 0, 0, 0, 1, 5, 0, 0, 0, 2]
    ⟨⟨7, 8, 9, 10⟩, ⟨5, [5, 0, 0, 0, 1]⟩, ⟨5, [5, 0, 0, 0, 2]⟩, []⟩
    (parseCommandReplyMessage_payload ⟨7, 8, 9, 10⟩ ⟨5, [5, 0, 0, 0, 1]⟩
      ⟨5, [5, 0, 0, 0, 2]⟩ [] (by decide) (by decide) (by simp))).1

/-- Concrete handshake query with a duplicated client-identity key. -/
def dupClientQuery : QueryMessage :=
  ⟨⟨0, 0, 0, 0⟩, "admin.$cmd",
   [("isMaster", .int 1), ("client", .int 1), ("client", .int 2)]⟩

/-- C7 (counterexample): a handshake query meeting every condition of the
claim — command namespace, first key case-insensitively "ismaster" — whose
query document carries the "client" key twice.  The interceptor removes
only the first occurrence, so the returned query document still contains a
"client" key, contradicting "contains no client key". -/
theorem intercept_duplicate_client_counterexample :
    NamespaceIsCommand dupClientQuery.Namespace = true
    ∧ (dupClientQuery.Query.map Prod.fst).head? = some "isMaster"
    ∧ lowerString "isMaster" = "ismaster"
    ∧ InterceptClientToMongo (.query dupClientQuery)
      = (.query ⟨⟨0, 0, 0, 0⟩, "admin.$cmd", [("isMaster", .int 1), ("client", .int 2)]⟩,
         none, none)
    ∧ "client" ∈ ([("isMaster", BVal.int 1), ("client", BVal.int 2)]).map Prod.fst :=
  ⟨by decide, rfl, by decide, by decide, by decide⟩

/-- C7 (amended): a query message against a command namespace whose first
key, lowercased, is "ismaster" is returned with precisely the first
occurrence of the "client" field removed from its query document and all
other fields preserved in order — hence with no "client" key at all
whenever the document carried the key at most once — with no response
interceptor and no error; every other message (non-command namespace,
empty query document, other first key, or a non-query message) is returned
unchanged with no response interceptor and no error. -/
theorem intercept_strips_first_client :
    (∀ (mm : QueryMessage) (k : String) (v : BVal) (rest : BDoc),
        NamespaceIsCommand mm.Namespace = true → mm.Query = (k, v) :: rest →
        lowerString k = "ismaster" →
        InterceptClientToMongo (.query mm)
          = (.query { mm with Query := eraseFirstKey "client" mm.Query }, none, none)
        ∧ ((mm.Query.map Prod.fst).count "client" ≤ 1 →
            "client" ∉ (eraseFirstKey "client" mm.Query).map Prod.fst))
    ∧ (∀ mm : QueryMessage, NamespaceIsCommand mm.Namespace = false →
        InterceptClientToMongo (.query mm) = (.query mm, none, none))
    ∧ (∀ mm : QueryMessage, mm.Query = [] →
        InterceptClientToMongo (.query mm) = (.query mm, none, none))
    ∧ (∀ (mm : QueryMessage) (k : String) (v : BVal) (rest : BDoc),
        mm.Query = (k, v) :: rest → lowerString k ≠ "ismaster" →
        InterceptClientToMongo (.query mm) = (.query mm, none, none))
    ∧ (∀ cm : CommandReplyMessage,
        InterceptClientToMongo (.commandReply cm) = (.commandReply cm, none, none))
    ∧ (∀ t : Nat, InterceptClientToMongo (.other t) = (.other t, none, none)) := by
  refine ⟨?_, ?_, ?_, ?_, fun cm => rfl, fun t => rfl⟩
  · intro mm k v rest hns hq hk
    obtain ⟨hdr, ns, q⟩ := mm
    simp only at hns hq ⊢
    subst hq
    constructor
    · simp only [InterceptClientToMongo]
      rw [if_neg (by simp [hns])]
      split
      · next hcond => exact absurd hk (by simpa using hcond)
      · rw [splice_eq_eraseFirstKey "client" ((k, v) :: rest)]
    · exact eraseFirstKey_not_mem "client" ((k, v) :: rest)
  · intro mm hns
    obtain ⟨hdr, ns, q⟩ := mm
    simp only at hns
    simp only [InterceptClientToMongo]
    rw [if_pos (by simp [hns])]
  · intro mm hq
    obtain ⟨hdr, ns, q⟩ := mm
    simp only at hq
    subst hq
    simp only [InterceptClientToMongo]
    split <;> rfl
  · intro mm k v rest hq hk
    obtain ⟨hdr, ns, q⟩ := mm
    simp only at hq
    subst hq
    simp only [InterceptClientToMongo]
    split <;> rfl

/-- Witness for C7 at a concrete single-client handshake query: the client
field is gone from the forwarded query. -/
theorem intercept_strips_first_client_witness :
    InterceptClientToMongo
        (.query ⟨⟨0, 0, 0, 0⟩, "admin.$cmd",
          [("isMaster", .int 1), ("client", .str "x"), ("saslSupportedMechs", .str "u.n")]⟩)
      = (.query ⟨⟨0, 0, 0, 0⟩, "admin.$cmd",
          (eraseFirstKey "client"
            [("isMaster", .int 1), ("client", .str "x"),
             ("saslSupportedMechs", .str "u.n")])⟩, none, none)
    ∧ "client" ∉ (eraseFirstKey "client"
        [("isMaster", BVal.int 1), ("client", BVal.str "x"),
         ("saslSupportedMechs", BVal.str "u.n")]).map Prod.fst := by
  have h := intercept_strips_first_client.1
    ⟨⟨0, 0, 0, 0⟩, "admin.$cmd",
      [("isMaster", .int 1), ("client", .str "x"), ("saslSupportedMechs", .str "u.n")]⟩
    "isMaster" (.int 1) [("client", .str "x"), ("saslSupportedMechs", .str "u.n")]
    (by decide) rfl (by decide)
  exact ⟨h.1, h.2 (by decide)⟩

/-- C8: over every sequence of pool operations, the connections-created
counter ends at its starting value plus exactly the number of successful
new-socket creations in the run (so from process start it equals that
number exactly), it never decreases, a release — healthy or not — never
changes it, and an acquire increments it by exactly one precisely when it
opens a new socket (empty idle set and successful open). -/
theorem connections_created_invariant :
    (∀ (ops : List PoolOp) (s : PoolState),
        (poolRun s ops).created = s.created + poolCreations s ops)
    ∧ (∀ (ops : List PoolOp) (s : PoolState), s.created ≤ (poolRun s ops).created)
    ∧ (∀ (s : PoolState) (c : Nat) (healthy : Bool),
        (poolStep s (.release c healthy)).created = s.created)
    ∧ (∀ (s : PoolState) (ok : Bool),
        (poolStep s (.acquire ok)).created
          = s.created + (match s.idle, ok with | [], true => 1 | _, _ => 0)) := by
  refine ⟨poolRun_created, poolRun_monotone, ?_, ?_⟩
  · intro s c healthy
    cases healthy <;> simp [poolStep]
  · intro s ok
    rw [poolStep_created]
    cases hidle : s.idle <;> cases ok <;> simp

/-- C9: whenever the first forward attempt fails on the backend side, the
session performs exactly two forwards in the cycle — the original and
exactly one retry, never zero and never a second retry — after releasing
the failed connection as unhealthy and acquiring a fresh one; if the retry
fails on the backend side as well, the cycle ends in a `MongoError` reply
(client connection stays open), while a successful retry yields a normal
reply and a client-side failure closes the session. -/
theorem retry_once_policy (outcomes : Nat → AttemptOutcome)
    (h0 : outcomes 0 = .backendFailure) :
    (runRequestCycle outcomes).1.count .forward = 2
    ∧ (runRequestCycle outcomes).1.count .releaseUnhealthy = 1
    ∧ (runRequestCycle outcomes).1.count .acquireFresh = 1
    ∧ (outcomes 1 = .backendFailure → (runRequestCycle outcomes).2 = .mongoErrorReply)
    ∧ (outcomes 1 = .success → (runRequestCycle outcomes).2 = .normalReply)
    ∧ (outcomes 1 = .clientFailure → (runRequestCycle outcomes).2 = .sessionClosed) := by
  unfold runRequestCycle
  rw [forwardWithRetry, h0]
  cases h1 : outcomes 1 with
  | success =>
    rw [forwardWithRetry, h1]
    refine ⟨by decide, by decide, by decide, ?_, fun _ => rfl, ?_⟩
    · intro hcontra
      cases hcontra
    · intro hcontra
      cases hcontra
  | backendFailure =>
    rw [forwardWithRetry, h1]
    refine ⟨by decide, by decide, by decide, fun _ => rfl, ?_, ?_⟩
    · intro hcontra
      cases hcontra
    · intro hcontra
      cases hcontra
  | clientFailure =>
    rw [forwardWithRetry, h1]
    refine ⟨by decide, by decide, by decide, ?_, ?_, fun _ => rfl⟩
    · intro hcontra
      cases hcontra
    · intro hcontra
      cases hcontra

/-- Witness for C9: both attempts fail on the backend — two forwards, one
unhealthy release, one fresh acquire, and a `MongoError` reply. -/
theorem retry_once_policy_witness :
    (runRequestCycle (fun _ => AttemptOutcome.backendFailure)).1.count .forward = 2
    ∧ (runRequestCycle (fun _ => AttemptOutcome.backendFailure)).1.count .releaseUnhealthy = 1
    ∧ (runRequestCycle (fun _ => AttemptOutcome.backendFailure)).2 = .mongoErrorReply :=
  ⟨(retry_once_policy (fun _ => .backendFailure) rfl).1,
   (retry_once_policy (fun _ => .backendFailure) rfl).2.1,
   (retry_once_policy (fun _ => .backendFailure) rfl).2.2.2.1 rfl⟩

/-- Witness for C5 at a concrete error with and without a cause. -/
theorem toBSON_shape_witness :
    (NewMongoError (some "boom") 2 "BadValue").ToBSON
      = [("ok", BVal.int 0)]
        ++ (match (NewMongoError (some "boom") 2 "BadValue").err with
            | some msg => [("errmsg", BVal.str msg)] | none => [])
        ++ [("code", BVal.int 2), ("codeName", BVal.str "BadValue")]
    ∧ (NewMongoError none 2 "BadValue").ToBSON.head? = some ("ok", BVal.int 0) :=
  ⟨(toBSON_shape (NewMongoError (some "boom") 2 "BadValue")).1,
   (toBSON_shape (NewMongoError none 2 "BadValue")).2.1⟩

/-- Witness for C8: a cold-pool run with three new sockets opened and one
unhealthy release ends with the counter at exactly 3. -/
theorem connections_created_invariant_witness :
    (poolRun ⟨[], 0, 0⟩
        [.acquire true, .acquire true, .release 0 false, .acquire true]).created
      = 0 + poolCreations ⟨[], 0, 0⟩
        [.acquire true, .acquire true, .release 0 false, .acquire true]
    ∧ poolCreations ⟨[], 0, 0⟩
        [.acquire true, .acquire true, .release 0 false, .acquire true] = 3 :=
  ⟨connections_created_invariant.1
      [.acquire true, .acquire true, .release 0 false, .acquire true] ⟨[], 0, 0⟩,
   by decide⟩
